import Mathlib

/-
  Verification development for the archwire path-construction engine
  (src/src/main.js).  The discrete parts (history stack, selection sets,
  clustering, nearest-neighbour ordering) are embedded over exact rational
  coordinates; the geometric parts (conic fitting and sampling, U-loop
  generation, plane export/import) are embedded over the reals.

  Where the JavaScript compares Euclidean distances (`a.distanceTo(b)`),
  the embedding compares squared distances: `Real.sqrt` is strictly
  monotone on nonnegative reals, so every comparison made by the source is
  mirrored exactly (a bridging lemma `sqrt_lt_sqrt_iff_of_cast` is proved
  below).  Polyline lengths themselves are real-valued sums of square
  roots, as in the source.
-/

/-- A 3D point with exact rational coordinates (models `THREE.Vector3`
for the discrete algorithms). -/
structure Q3 where
  x : ℚ
  y : ℚ
  z : ℚ
deriving DecidableEq, Repr

/-- Squared Euclidean distance.  The source computes
`a.distanceTo(b) = sqrt(dx^2+dy^2+dz^2)`; all comparisons of distances in
the source are equivalent to comparisons of these squares. -/
def distSq (a b : Q3) : ℚ :=
  (a.x - b.x) ^ 2 + (a.y - b.y) ^ 2 + (a.z - b.z) ^ 2

/- ## Nearest-neighbour ordering (`sortContactPointsByTSP`, main.js:1036) -/

/-- Inner scan of `sortContactPointsByTSP`: JavaScript keeps
`closestIndex`/`minDistance` and updates them when a strictly smaller
distance is found (first minimum wins).  `i` is the index of the head of
`rem` in the remaining array, `best`/`bestD` the current champion. -/
def closestIdxGo (cur : Q3) : List Q3 → ℕ → ℕ → ℚ → ℕ
  | [], _, best, _ => best
  | p :: tl, i, best, bestD =>
    if distSq cur p < bestD then closestIdxGo cur tl (i + 1) i (distSq cur p)
    else closestIdxGo cur tl (i + 1) best bestD

/-- Index of the point of `hd :: tl` nearest to `cur`
(`minDistance` is initialised from element 0, the loop starts at 1). -/
def closestIdx (cur : Q3) (hd : Q3) (tl : List Q3) : ℕ :=
  closestIdxGo cur tl 1 0 (distSq cur hd)

/-- Greedy loop of `sortContactPointsByTSP`: repeatedly move to the
nearest remaining point (removing it with `splice`).  `fuel` is the
length of the remaining list. -/
def tspGo (cur : Q3) : ℕ → List Q3 → List Q3
  | 0, _ => []
  | _ + 1, [] => []
  | n + 1, hd :: tl =>
    let j := closestIdx cur hd tl
    let nxt := (hd :: tl).getD j hd
    nxt :: tspGo nxt n ((hd :: tl).eraseIdx j)

/-- `sortContactPointsByTSP` (main.js:1036): returns the input unchanged
for ≤ 2 points, otherwise starts from the first point and greedily visits
the nearest unvisited point. -/
def sortContactPointsByTSP (points : List Q3) : List Q3 :=
  if points.length ≤ 2 then points
  else
    match points with
    | [] => []
    | p :: rest => p :: tspGo p rest.length rest

/-- Real polyline length of a point list, as the source computes it:
the sum of Euclidean (square-root) distances of consecutive points. -/
noncomputable def totalLength : List Q3 → ℝ
  | a :: b :: t => Real.sqrt ((distSq a b : ℚ) : ℝ) + totalLength (b :: t)
  | _ => 0

/- ## Selection sets (`handleULoopSelection` main.js:2606,
     `handleContactPointSelection` main.js:1652) -/

/-- `handleULoopSelection` effect on the list of selected path-point
indices: clicking an already selected index removes it (`splice` at
`indexOf`); otherwise, if 3 are already selected the oldest is removed
(`shift()`), and the new index is appended. -/
def handleULoopSelection (sel : List ℕ) (index : ℕ) : List ℕ :=
  if index ∈ sel then sel.erase index
  else (if 3 ≤ sel.length then sel.tail else sel) ++ [index]

/-- `handleContactPointSelection` effect on the list of selected contact
point indices: clicking a selected index deselects it (`filter`);
otherwise, if 2 are already selected the whole selection is cleared
before the new index is pushed. -/
def handleContactPointSelection (sel : List ℕ) (index : ℕ) : List ℕ :=
  if index ∈ sel then sel.filter (· ≠ index)
  else if 2 ≤ sel.length then [index]
  else sel ++ [index]

/- ## Point clustering (`clusterPoints`, main.js:1095) -/

/-- Absorption test of `clusterPoints`:
`points[i].distanceTo(points[j]) <= radius`, compared via squares. -/
def withinQ (p q : Q3) (r : ℚ) : Bool :=
  decide (distSq p q ≤ r ^ 2)

/-- Centroid of a cluster: sum of the members divided by their count. -/
def centroidQ (l : List Q3) : Q3 :=
  let s := l.foldr (fun p acc => Q3.mk (p.x + acc.x) (p.y + acc.y) (p.z + acc.z))
    (Q3.mk 0 0 0)
  Q3.mk (s.x / l.length) (s.y / l.length) (s.z / l.length)

/-- `clusterPoints` (main.js:1095): greedy single-link clustering.  The
source walks indices `i` in order, and for an unused seed absorbs every
later unused point within `radius` of the seed, marking it used; the
group is replaced by its centroid.  Since absorption tests only the seed
and used points are simply skipped, this is the same as recursively
splitting the tail of the list by the radius test. -/
def clusterPoints (r : ℚ) : List Q3 → List Q3
  | [] => []
  | p :: rest =>
    centroidQ (p :: rest.filter (fun q => withinQ p q r)) ::
      clusterPoints r (rest.filter (fun q => ! withinQ p q r))
termination_by l => l.length
decreasing_by
  simp only [List.length_cons]
  exact Nat.lt_succ_of_le (List.length_filter_le _ _)

/-- Number of unordered close pairs (at indices `i < j`) of the list. -/
def closePairs (r : ℚ) : List Q3 → ℕ
  | [] => 0
  | p :: rest => rest.countP (fun q => withinQ p q r) + closePairs r rest

/- ## History stack (`saveState` main.js:2762, `undo` main.js:2786) -/

/-- The `userData` tag carried by generated U-loop points:
`{type:'uloop'}` on the visible arm/mid points and
`{isULoopInternal:true, type:'uloop'}` on hidden interior points. -/
inductive PTag where
  | uloop
  | uloopInternal
deriving DecidableEq, Repr

/-- A path point: position plus optional `userData` tag. -/
structure PathPoint where
  x : ℚ
  y : ℚ
  z : ℚ
  tag : Option PTag
deriving DecidableEq, Repr

instance : Inhabited PathPoint := ⟨⟨0, 0, 0, none⟩⟩

/-- `p.clone()` followed by copying `userData` (`{...p.userData}`), as
`saveState`/`undo` do for each point. -/
def clonePoint (p : PathPoint) : PathPoint :=
  ⟨p.x, p.y, p.z, p.tag⟩

/-- The path editor's state relevant to history: the live point sequence
and the undo stack of snapshots. -/
structure EditorState where
  points : List PathPoint
  history : List (List PathPoint)
deriving DecidableEq, Repr

/-- `saveState` (main.js:2762): push a deep copy of the current sequence
(cloning each point together with its tag) onto `historyStack`. -/
def saveState (s : EditorState) : EditorState :=
  { s with history := s.points.map clonePoint :: s.history }

/-- An arbitrary mutation of the live point sequence (draw insertion,
drag edit, splice-replace, full replace, ...): it rewrites `points` and
leaves the history stack alone. -/
def mutatePoints (f : List PathPoint → List PathPoint) (s : EditorState) : EditorState :=
  { s with points := f s.points }

/-- `undo` (main.js:2786): no-op when the stack is empty, otherwise pop
the last snapshot and install a deep copy of it as the live sequence. -/
def undo (s : EditorState) : EditorState :=
  match s.history with
  | [] => s
  | prev :: rest => { points := prev.map clonePoint, history := rest }

/- ## Heap model for snapshot isolation (`saveState` main.js:2762 and the
     drag handler of `setupPointDragControls`, main.js:1410) -/

/-- Heap-based state: JavaScript points are mutable objects, so the model
makes the store explicit.  Addresses are indices into `heap`; `live`
holds the addresses of the current path points and each entry of
`history` holds the addresses of one snapshot's private copies. -/
structure HeapState where
  heap : List PathPoint
  live : List ℕ
  history : List (List ℕ)

/-- Dereference an address. -/
def readAddr (s : HeapState) (a : ℕ) : PathPoint :=
  s.heap.getD a default

/-- The values of the live point sequence. -/
def readLive (s : HeapState) : List PathPoint :=
  s.live.map (readAddr s)

/-- The values of a stored snapshot. -/
def readSnap (s : HeapState) (snap : List ℕ) : List PathPoint :=
  snap.map (readAddr s)

/-- Heap-level `saveState`: each live point is cloned into a fresh cell
(`p.clone()` plus `{...userData}` allocate new objects), and the snapshot
records the fresh addresses.  The live sequence itself is untouched. -/
def hSaveState (s : HeapState) : HeapState :=
  { heap := s.heap ++ s.live.map (readAddr s)
    live := s.live
    history := List.range' s.heap.length s.live.length :: s.history }

/-- Drag-edit mutation (main.js:1414-1419): `points[idx].copy(pos)`
overwrites the coordinates of the live point object in place, keeping its
`userData`. -/
def dragMutate (s : HeapState) (i : ℕ) (v : ℚ × ℚ × ℚ) : HeapState :=
  let a := s.live.getD i 0
  let old := readAddr s a
  { s with heap := s.heap.set a ⟨v.1, v.2.1, v.2.2, old.tag⟩ }

/-- Well-formedness: live addresses point into the heap. -/
def wfH (s : HeapState) : Prop :=
  ∀ a ∈ s.live, a < s.heap.length

/-- Separation: stored snapshots never alias the live sequence (each
snapshot was freshly allocated by `saveState`). -/
def sepH (s : HeapState) : Prop :=
  ∀ snap ∈ s.history, ∀ a ∈ snap, a ∉ s.live

/- ## Real-valued geometry

The remaining components (conic fitting and sampling, U-loop generation,
plane handling) work with square roots and trigonometry, so they are
embedded over `ℝ`.  Comparisons on reals use classical decidability. -/

noncomputable section RealGeometry

open Classical

/-- A 3D point/vector over the reals (models `THREE.Vector3` for the
geometric algorithms). -/
structure R3 where
  x : ℝ
  y : ℝ
  z : ℝ

instance : Inhabited R3 := ⟨⟨0, 0, 0⟩⟩

instance : Add R3 := ⟨fun a b => ⟨a.x + b.x, a.y + b.y, a.z + b.z⟩⟩

instance : Sub R3 := ⟨fun a b => ⟨a.x - b.x, a.y - b.y, a.z - b.z⟩⟩

instance : SMul ℝ R3 := ⟨fun t a => ⟨t * a.x, t * a.y, t * a.z⟩⟩

/-- Dot product. -/
def dotR (a b : R3) : ℝ := a.x * b.x + a.y * b.y + a.z * b.z

/-- Cross product (`THREE.Vector3.crossVectors`). -/
def crossR (a b : R3) : R3 :=
  ⟨a.y * b.z - a.z * b.y, a.z * b.x - a.x * b.z, a.x * b.y - a.y * b.x⟩

/-- Squared norm. -/
def normSqR (a : R3) : ℝ := a.x ^ 2 + a.y ^ 2 + a.z ^ 2

/-- `v.length()`. -/
def lengthR (a : R3) : ℝ := Real.sqrt (normSqR a)

/-- `a.distanceTo(b)`. -/
def distR (a b : R3) : ℝ := lengthR (a - b)

/-- `v.normalize()`: divides by the length.  (For the zero vector the
JavaScript produces NaN components; in this exact embedding division by
zero yields the zero vector instead, and the one caller that checks for
the NaN case — `smallestEigenVector3` — tests for that degeneracy
explicitly below.) -/
def normalizeR (a : R3) : R3 := (1 / lengthR a) • a

/-- `a.lerp(b, t)` / `a.clone().lerp(b, t)`. -/
def lerpR (a b : R3) (t : ℝ) : R3 := a + t • (b - a)

/-- A 2D point in the fitting plane. -/
structure R2 where
  x : ℝ
  y : ℝ

/-- General conic `A x² + B x y + C y² + D x + E y + F = 0`, the record
`{a,b,c,d,e,f}` produced by the fitting code. -/
structure Conic where
  a : ℝ
  b : ℝ
  c : ℝ
  d : ℝ
  e : ℝ
  f : ℝ

/-- Value of the conic form at a 2D point. -/
def conicEval (q : Conic) (p : R2) : ℝ :=
  q.a * p.x ^ 2 + q.b * p.x * p.y + q.c * p.y ^ 2 + q.d * p.x + q.e * p.y + q.f

/-- `isHyperbolaConic` (main.js:2161): the fit is classified as a
hyperbola exactly when `4ac − b² < 0`. -/
def isHyperbolaConic (q : Conic) : Prop :=
  4 * q.a * q.c - q.b * q.b < 0

/-- `solveConicY` (main.js:2339): for a fixed `x`, solve the quadratic
`c y² + (b x + e) y + (a x² + d x + f) = 0`; `none` when the discriminant
is negative, otherwise the two roots `(-qb ± √disc)/(2c)`. -/
def solveConicY (q : Conic) (x : ℝ) : Option (ℝ × ℝ) :=
  let qa := q.c
  let qb := q.b * x + q.e
  let qc := q.a * x ^ 2 + q.d * x + q.f
  let disc := qb ^ 2 - 4 * qa * qc
  if disc < 0 then none
  else
    let s := Real.sqrt (max 0 disc)
    some ((-qb + s) / (2 * qa), (-qb - s) / (2 * qa))

/-- Stable ascending insertion into a sorted list (used to model the
stable JavaScript `Array.sort((a,b) => a-b)`). -/
def insortR (x : ℝ) : List ℝ → List ℝ
  | [] => [x]
  | y :: t => if x ≤ y then x :: y :: t else y :: insortR x t

/-- Stable ascending sort of a list of reals. -/
def sortAscR (l : List ℝ) : List ℝ := l.foldr insortR []

/-- `precomputeBranchSelector` (main.js:2328): the sorted `y` values of
the interior sample points. -/
def precomputeBranchSelector (mids : List R2) : List ℝ :=
  sortAscR (mids.map R2.y)

/-- `selectBranch` (main.js:2356): pick the root closer to the median of
the interior `y` values.  (With no interior points the JavaScript indexes
past the array and the NaN comparison selects the second root; the model
returns the second root for the empty list.) -/
def selectBranch (y1 y2 : ℝ) (branchYs : List ℝ) : ℝ :=
  match branchYs with
  | [] => y2
  | _ =>
    let median := branchYs.getD (branchYs.length / 2) 0
    if |y1 - median| < |y2 - median| then y1 else y2

/-- `sampleHyperbolaConicConstrained` (main.js:2300): sample `count`
evenly spaced `x` values between the endpoints (after ordering them by
`x`), solve for `y` on the branch nearest the interior median, skip `x`
values with no real solution, restore the original direction, and then
force the first and last samples to be exactly the supplied endpoints. -/
def sampleHyperbolaConicConstrained
    (conic : Conic) (end1 end2 : R2) (mids : List R2) (count : ℕ) : List R2 :=
  let reverse := end2.x < end1.x
  let a := if reverse then end2 else end1
  let b := if reverse then end1 else end2
  let xs := (List.range count).map
    (fun i : ℕ => a.x + (b.x - a.x) * ((i : ℝ) / ((count : ℝ) - 1)))
  let branchYs := precomputeBranchSelector mids
  let res := xs.filterMap (fun x =>
    match solveConicY conic x with
    | none => none
    | some ys => some (R2.mk x (selectBranch ys.1 ys.2 branchYs)))
  let res := if reverse then res.reverse else res
  if res.isEmpty then res
  else (res.set 0 end1).set (res.length - 1) end2

/- ## U-loop generator (`generateULoopGeometry` main.js:2683,
     `generateULoopFromThreePoints` main.js:2730) -/

/-- `THREE.Vector3.applyAxisAngle(axis, angle)` (external library):
rotation through the quaternion `(sin(θ/2)·axis, cos(θ/2))`, applied as
`v + w·t + qv × t` with `t = 2·(qv × v)`. -/
def applyAxisAngle (v axis : R3) (angle : ℝ) : R3 :=
  let s := Real.sin (angle / 2)
  let w := Real.cos (angle / 2)
  let qv := s • axis
  let t := (2 : ℝ) • crossR qv v
  v + w • t + crossR qv t

/-- `generateULoopGeometry` (main.js:2683): raise both base anchors by
`height` along `y_hat` plus a fixed 1.0 mm end offset, then connect the
two arm tops with a semicircle of 16 segments (interior samples
`i = 1..15` rotated from the start arm around the axis `z_hat`
perpendicular to the base chord and `y_hat`), ending at the second arm
top.  (The `userData` role tags set on the generated points are modelled
in the history section; only geometry is kept here.) -/
def generateULoopGeometry (baseStart baseEnd y_hat : R3) (height : ℝ) : List R3 :=
  let armTopStart := baseStart + height • y_hat + (1 : ℝ) • y_hat
  let armTopEnd := baseEnd + height • y_hat + (1 : ℝ) • y_hat
  let semicenter := lerpR armTopStart armTopEnd (1 / 2)
  let startVec := armTopStart - semicenter
  let x_hat := normalizeR (baseEnd - baseStart)
  let z_hat := normalizeR (crossR x_hat y_hat)
  let samples := (List.range' 1 15).map
    (fun i : ℕ => applyAxisAngle startVec z_hat (-Real.pi * ((i : ℝ) / 16)) + semicenter)
  armTopStart :: samples ++ [armTopEnd]

/-- The bend-opening direction computed by `generateULoopFromThreePoints`
(main.js:2730-2746): the in-plane direction perpendicular to the chord,
sign-corrected to point from the chord midpoint towards the middle
anchor. -/
def uLoopYHat (p_start p_mid p_end : R3) : R3 :=
  let v1 := p_mid - p_start
  let v2 := p_end - p_start
  let planeNormal := normalizeR (crossR v1 v2)
  let x_hat := normalizeR (p_end - p_start)
  let y_hat := normalizeR (crossR planeNormal x_hat)
  let curveMidpoint := lerpR p_start p_end (1 / 2)
  let toMidPoint := p_mid - curveMidpoint
  if dotR y_hat toMidPoint < 0 then (-1 : ℝ) • y_hat else y_hat

/-- The U-loop height computed by `generateULoopFromThreePoints`
(main.js:2748-2750): `toMidPoint.length() − startToEndDistance / 2`,
passed on without clamping. -/
def uLoopHeight (p_start p_mid p_end : R3) : ℝ :=
  let curveMidpoint := lerpR p_start p_end (1 / 2)
  let toMidPoint := p_mid - curveMidpoint
  lengthR toMidPoint - distR p_start p_end / 2

/-- `generateULoopFromThreePoints` (main.js:2730): derive the opening
direction and the height from the three anchors and generate the loop. -/
def generateULoopFromThreePoints (p_start p_mid p_end : R3) : List R3 :=
  generateULoopGeometry p_start p_end (uLoopYHat p_start p_mid p_end)
    (uLoopHeight p_start p_mid p_end)

/- ## Conic fitting pipeline (`fitConicConstrainedThrough` main.js:2237,
     `nullSpace` main.js:2275, `svdDecompose` main.js:2367,
     `eigenSymmetric` main.js:2393) -/

/-- Matrix entry access with the out-of-range default 0 (matrices are
lists of rows). -/
def entryM (A : List (List ℝ)) (i j : ℕ) : ℝ :=
  (A.getD i []).getD j 0

/-- `Math.atan2(y, x)` (external library), the standard piecewise
definition in terms of `arctan`. -/
def atan2R (y x : ℝ) : ℝ :=
  if 0 < x then Real.arctan (y / x)
  else if x < 0 then
    (if 0 ≤ y then Real.arctan (y / x) + Real.pi else Real.arctan (y / x) - Real.pi)
  else if 0 < y then Real.pi / 2
  else if y < 0 then -(Real.pi / 2)
  else 0

/-- All index pairs `i < j` of an `n × n` matrix, in the scan order of the
source's double loop. -/
def pivotPairs (n : ℕ) : List (ℕ × ℕ) :=
  (List.range n).flatMap (fun i =>
    (List.range n).filterMap (fun j => if i < j then some (i, j) else none))

/-- Pivot search of `eigenSymmetric`: the first off-diagonal entry of
maximal absolute value (ties keep the earlier pair, as the JavaScript
updates only on a strict increase), starting from `(0,1)`. -/
def pivotScan (A : List (List ℝ)) (n : ℕ) : (ℕ × ℕ) × ℝ :=
  (pivotPairs n).foldl
    (fun best pq =>
      if |entryM A pq.1 pq.2| > best.2 then (pq, |entryM A pq.1 pq.2|) else best)
    ((0, 1), |entryM A 0 1|)

/-- Apply the Jacobi rotation with angle `phi` at pivot `(p,q)` to the
matrix, exactly as the source does: first the column update
`A[i][p], A[i][q]`, then the row update `A[p][j], A[q][j]`, then the
explicit diagonal/pivot overwrites. -/
def jacobiRotate (A : List (List ℝ)) (p q : ℕ) (phi : ℝ) : List (List ℝ) :=
  let c := Real.cos phi
  let s := Real.sin phi
  let app := entryM A p p
  let aqq := entryM A q q
  let apq := entryM A p q
  let A1 := A.map (fun row =>
    let aip := row.getD p 0
    let aiq := row.getD q 0
    (row.set p (c * aip - s * aiq)).set q (s * aip + c * aiq))
  let rowp := A1.getD p []
  let rowq := A1.getD q []
  let newp := (List.range rowp.length).map
    (fun j => c * rowp.getD j 0 - s * rowq.getD j 0)
  let newq := (List.range rowq.length).map
    (fun j => s * rowp.getD j 0 + c * rowq.getD j 0)
  let A2 := (A1.set p newp).set q newq
  let A3 := A2.set p ((A2.getD p []).set p
    (c * c * app - 2 * s * c * apq + s * s * aqq))
  let A4 := A3.set q ((A3.getD q []).set q
    (s * s * app + 2 * s * c * apq + c * c * aqq))
  let A5 := A4.set p ((A4.getD p []).set q 0)
  (A5.set q ((A5.getD q []).set p 0))

/-- Rotate the accumulated eigenvector matrix `V` in columns `p,q`. -/
def jacobiRotateV (V : List (List ℝ)) (p q : ℕ) (phi : ℝ) : List (List ℝ) :=
  let c := Real.cos phi
  let s := Real.sin phi
  V.map (fun row =>
    let vip := row.getD p 0
    let viq := row.getD q 0
    (row.set p (c * vip - s * viq)).set q (s * vip + c * viq))

/-- The diagonal of a square matrix. -/
def diagM (A : List (List ℝ)) (n : ℕ) : List ℝ :=
  (List.range n).map (fun i => entryM A i i)

/-- The `n × n` identity matrix. -/
def identityM (n : ℕ) : List (List ℝ) :=
  (List.range n).map (fun i =>
    (List.range n).map (fun j => if i = j then (1 : ℝ) else 0))

/-- The iteration of `eigenSymmetric` (main.js:2400-2431): up to `fuel`
Jacobi sweeps; stop early when the largest off-diagonal entry falls below
`1e-10`.  The rotation angle is `0.5·atan2(2·apq, aqq − app)`. -/
def jacobiGo (n : ℕ) : ℕ → List (List ℝ) → List (List ℝ) →
    List ℝ × List (List ℝ)
  | 0, A, V => (diagM A n, V)
  | fuel + 1, A, V =>
    let pqm := pivotScan A n
    if pqm.2 < 1 / 10 ^ 10 then (diagM A n, V)
    else
      let p := pqm.1.1
      let q := pqm.1.2
      let phi := 0.5 * atan2R (2 * entryM A p q) (entryM A q q - entryM A p p)
      jacobiGo n fuel (jacobiRotate A p q phi) (jacobiRotateV V p q phi)

/-- `eigenSymmetric` (main.js:2393): cyclic Jacobi diagonalisation with a
fixed budget of 50 sweeps, returning the (approximate) eigenvalues on the
diagonal and the accumulated rotation matrix of eigenvectors. -/
def eigenSymmetric (M : List (List ℝ)) : List ℝ × List (List ℝ) :=
  jacobiGo M.length 50 M (identityM M.length)

/-- Stable insertion of an (index, key) pair, ascending by key — models
the stable JavaScript `sort((a,b) => a.v − b.v)` on `{v,i}` records. -/
def insortPair (x : ℕ × ℝ) : List (ℕ × ℝ) → List (ℕ × ℝ)
  | [] => [x]
  | y :: t => if x.2 ≤ y.2 then x :: y :: t else y :: insortPair x t

/-- Stable ascending sort of (index, key) pairs by key. -/
def sortPairsAsc (l : List (ℕ × ℝ)) : List (ℕ × ℝ) := l.foldr insortPair []

/-- The column order that sorts the eigenvalues ascending. -/
def ascendingOrder (values : List ℝ) : List ℕ :=
  (sortPairsAsc values.enum).map Prod.fst

/-- `svdDecompose` (main.js:2367): form the Gram matrix `AᵀA`, eigen-
decompose it, and return the right singular vectors `V` with columns
reordered by ascending eigenvalue; `none` for an empty matrix. -/
def svdDecompose (A : List (List ℝ)) : Option (List (List ℝ)) :=
  if A.length = 0 then none
  else
    let n := (A.getD 0 []).length
    let AtA := (List.range n).map (fun j =>
      (List.range n).map (fun k =>
        (A.foldr (fun row acc => acc + row.getD j 0 * row.getD k 0) 0)))
    let eig := eigenSymmetric AtA
    let order := ascendingOrder eig.1
    some (eig.2.map (fun row => order.map (fun i => row.getD i 0)))

/-- `nullSpace` (main.js:2275): the last `n − 2` columns of `V` (the
singular vectors of smallest singular value; the two endpoint constraints
are assumed to have rank 2). -/
def nullSpace (C : List (List ℝ)) : Option (List (List ℝ)) :=
  let n := (C.getD 0 []).length
  match svdDecompose C with
  | none => none
  | some V =>
    let r := max 1 (n - 2)
    some ((List.range n).map (fun i =>
      (List.range r).map (fun j => entryM V i (n - r + j))))

/-- The design-matrix row `[x², xy, y², x, y, 1]` of a 2D point. -/
def rowFromPoint (p : R2) : List ℝ :=
  [p.x * p.x, p.x * p.y, p.y * p.y, p.x, p.y, 1]

/-- `fitConicConstrainedThrough` (main.js:2237): compute the null space
of the two endpoint constraint rows, project the interior-point design
matrix into it, take the eigenvector of the projected Gram matrix with
smallest eigenvalue, and map it back to conic coefficients. -/
def fitConicConstrainedThrough (p1 p2 : R2) (middlePts : List R2) : Option Conic :=
  let C := [rowFromPoint p1, rowFromPoint p2]
  match nullSpace C with
  | none => none
  | some Ns =>
    let w := (Ns.getD 0 []).length
    let A := middlePts.map rowFromPoint
    let M := A.map (fun aRow =>
      (List.range w).map (fun k =>
        Ns.enum.foldr (fun ji acc => acc + aRow.getD ji.1 0 * ji.2.getD k 0) 0))
    let MtM := (List.range w).map (fun j =>
      (List.range w).map (fun k =>
        M.foldr (fun row acc => acc + row.getD j 0 * row.getD k 0) 0))
    let eig := eigenSymmetric MtM
    let order := ascendingOrder eig.1
    let zvec := eig.2.map (fun row => row.getD (order.getD 0 0) 0)
    let q := (List.range 6).map (fun j =>
      ((Ns.getD j []).zip zvec).foldr (fun nk acc => acc + nk.1 * nk.2) 0)
    some ⟨q.getD 0 0, q.getD 1 0, q.getD 2 0, q.getD 3 0, q.getD 4 0, q.getD 5 0⟩

/- ## Best-fit plane and 2D projection (`estimateBestFitPlane`
     main.js:1975, `smallestEigenVector3` main.js:2082,
     `buildPlaneBasis` main.js:2001) -/

/-- Rotate coordinates `p,q` of a coordinate triple (held as a list), as
the `rotate` closure of `smallestEigenVector3` does for `v`, `w`, `u`. -/
def rotCoords (l : List ℝ) (p q : ℕ) (c s : ℝ) : List ℝ :=
  let ip := l.getD p 0
  let iq := l.getD q 0
  (l.set p (c * ip - s * iq)).set q (s * ip + c * iq)

/-- One datum of the hand-rolled 3×3 Jacobi state of
`smallestEigenVector3`: the six distinct entries of the symmetric matrix
plus the three tracked coordinate vectors. -/
structure Sev3State where
  a11 : ℝ
  a12 : ℝ
  a13 : ℝ
  a22 : ℝ
  a23 : ℝ
  a33 : ℝ
  v : List ℝ
  w : List ℝ
  u : List ℝ

/-- The pivot choice of `smallestEigenVector3`: start from `(0,1)` with
`|a12|`, switch to `(0,2)` / `(1,2)` on strictly larger off-diagonals. -/
def sev3Pivot (st : Sev3State) : ℕ × ℕ × ℝ :=
  let first : ℕ × ℕ × ℝ := (0, 1, |st.a12|)
  let second := if |st.a13| > first.2.2 then ((0 : ℕ), (2 : ℕ), |st.a13|) else first
  if |st.a23| > second.2.2 then ((1 : ℕ), (2 : ℕ), |st.a23|) else second

/-- One rotation step of `smallestEigenVector3` (main.js:2097-2127),
updating the three coordinate vectors and the matrix entries exactly as
the source's three `if` blocks do. -/
def sev3Step (st : Sev3State) (p q : ℕ) (phi : ℝ) : Sev3State :=
  let c := Real.cos phi
  let s := Real.sin phi
  let v' := rotCoords st.v p q c s
  let w' := rotCoords st.w p q c s
  let u' := rotCoords st.u p q c s
  if p = 0 ∧ q = 1 then
    { st with
      a11 := c * st.a11 - s * st.a12, a12 := s * st.a11 + c * st.a12,
      a22 := s * st.a12 + c * st.a22,
      a13 := c * st.a13 - s * st.a23, a23 := s * st.a13 + c * st.a23,
      v := v', w := w', u := u' }
  else if p = 0 ∧ q = 2 then
    { st with
      a11 := c * st.a11 - s * st.a13, a13 := s * st.a11 + c * st.a13,
      a33 := s * st.a13 + c * st.a33,
      a12 := c * st.a12 - s * st.a23, a23 := s * st.a12 + c * st.a23,
      v := v', w := w', u := u' }
  else
    { st with
      a22 := c * st.a22 - s * st.a23, a23 := s * st.a22 + c * st.a23,
      a33 := s * st.a23 + c * st.a33,
      a12 := c * st.a12 - s * st.a13, a13 := s * st.a12 + c * st.a13,
      v := v', w := w', u := u' }

/-- The bounded iteration (10 sweeps) of `smallestEigenVector3`. -/
def sev3Go : ℕ → Sev3State → Sev3State
  | 0, st => st
  | fuel + 1, st =>
    let pqm := sev3Pivot st
    if pqm.2.2 < 1 / 10 ^ 9 then st
    else
      let app_aqq_apq :=
        if pqm.1 = 0 ∧ pqm.2.1 = 1 then (st.a11, st.a22, st.a12)
        else if pqm.1 = 0 ∧ pqm.2.1 = 2 then (st.a11, st.a33, st.a13)
        else (st.a22, st.a33, st.a23)
      let phi := 0.5 * atan2R (2 * app_aqq_apq.2.2)
        (app_aqq_apq.2.1 - app_aqq_apq.1)
      sev3Go fuel (sev3Step st pqm.1 pqm.2.1 phi)

/-- `smallestEigenVector3` (main.js:2082): approximate Jacobi sweep
followed by the cross product of the two tracked directions; the
degenerate (NaN in JavaScript) case falls back to `(0,0,1)`. -/
def smallestEigenVector3 (m : List (List ℝ)) : R3 :=
  let st0 : Sev3State :=
    ⟨entryM m 0 0, entryM m 0 1, entryM m 0 2, entryM m 1 1, entryM m 1 2,
      entryM m 2 2, [1, 0, 0], [0, 1, 0], [0, 0, 1]⟩
  let st := sev3Go 10 st0
  let ev := normalizeR ⟨st.v.getD 0 0, st.v.getD 1 0, st.v.getD 2 0⟩
  let ew := normalizeR ⟨st.w.getD 0 0, st.w.getD 1 0, st.w.getD 2 0⟩
  let cr := crossR ev ew
  if lengthR cr = 0 then ⟨0, 0, 1⟩ else normalizeR cr

/-- `estimateBestFitPlane` (main.js:1975): centroid plus the smallest
eigenvector of the covariance matrix as the plane normal. -/
def estimateBestFitPlane (pts : List R3) : R3 × R3 :=
  let c := (1 / (pts.length : ℝ)) •
    pts.foldr (fun p acc => p + acc) (R3.mk 0 0 0)
  let cov :=
    [[pts.foldr (fun p a => a + (p.x - c.x) * (p.x - c.x)) 0,
      pts.foldr (fun p a => a + (p.x - c.x) * (p.y - c.y)) 0,
      pts.foldr (fun p a => a + (p.x - c.x) * (p.z - c.z)) 0],
     [pts.foldr (fun p a => a + (p.x - c.x) * (p.y - c.y)) 0,
      pts.foldr (fun p a => a + (p.y - c.y) * (p.y - c.y)) 0,
      pts.foldr (fun p a => a + (p.y - c.y) * (p.z - c.z)) 0],
     [pts.foldr (fun p a => a + (p.x - c.x) * (p.z - c.z)) 0,
      pts.foldr (fun p a => a + (p.y - c.y) * (p.z - c.z)) 0,
      pts.foldr (fun p a => a + (p.z - c.z) * (p.z - c.z)) 0]]
  (c, smallestEigenVector3 cov)

/-- `buildPlaneBasis` (main.js:2001): an orthonormal in-plane basis from
the normal, seeded with the world `y` axis unless the normal is nearly
vertical. -/
def buildPlaneBasis (normal : R3) : R3 × R3 × R3 :=
  let n := normalizeR normal
  let tmp := if |n.y| < 0.9 then R3.mk 0 1 0 else R3.mk 1 0 0
  let u := normalizeR (crossR tmp n)
  let v := normalizeR (crossR n u)
  (u, v, n)

/-- `toPlane2D` (main.js:2017). -/
def toPlane2D (p origin u v : R3) : R2 :=
  ⟨dotR (p - origin) u, dotR (p - origin) v⟩

/-- `fromPlane2D` (main.js:2030). -/
def fromPlane2D (p2 : R2) (origin u v : R3) : R3 :=
  origin + p2.x • u + p2.y • v

/- ## Hyperbola path generation (`generateHyperbolaPath` main.js:1783,
     `pickAutoThreeSamples` main.js:2206) -/

/-- Cumulative arc lengths along a polyline, starting from 0
(`cum[j]` is the length of the first `j` segments). -/
def cumLengths : List R3 → List ℝ
  | [] => [0]
  | [_] => [0]
  | a :: b :: t => 0 :: (cumLengths (b :: t)).map (fun x => x + distR a b)

/-- Segment finder of `pickAutoThreeSamples`: the `while` loop advancing
`j` from 1 while `j < cum.length` and `cum[j] < target`. -/
def locateSeg (cum : List ℝ) (target : ℝ) : ℕ → ℕ → ℕ
  | 0, j => j
  | fuel + 1, j =>
    if j < cum.length ∧ cum.getD j 0 < target then locateSeg cum target fuel (j + 1)
    else j

/-- `pickAutoThreeSamples` (main.js:2206): the points at 25%, 50% and 75%
of the cumulative arc length of the polyline; empty when the total length
is zero. -/
def pickAutoThreeSamples (poly : List R3) : List R3 :=
  let cum := cumLengths poly
  let total := cum.getD (cum.length - 1) 0
  if total = 0 then []
  else
    [(0.25 : ℝ), 0.5, 0.75].map (fun r =>
      let target := r * total
      let j := locateSeg cum target (cum.length + 1) 1
      if cum.length ≤ j then poly.getD (poly.length - 1) default
      else
        let segLen := cum.getD j 0 - cum.getD (j - 1) 0
        let t := if 0 < segLen then (target - cum.getD (j - 1) 0) / segLen else 0
        lerpR (poly.getD (j - 1) default) (poly.getD j default) t)

/-- Modelled from the external three.js library:
`new THREE.CatmullRomCurve3(pts, false, 'catmullrom', 0.5).getPoints(n)` —
uniform Catmull-Rom interpolation with tension 0.5 through the control
points, sampled at `n + 1` evenly spaced parameters.  The fallback branch
of the path generators is compared against this definition. -/
def catmullRomPoint (pts : List R3) (t : ℝ) : R3 :=
  let l := pts.length
  let p := ((l : ℝ) - 1) * t
  let ip0 : ℤ := ⌊p⌋
  let ip := if p - ⌊p⌋ = 0 ∧ ip0 = (l : ℤ) - 1 then ip0 - 1 else ip0
  let weight := p - (ip : ℝ)
  let at_ : ℤ → R3 := fun i =>
    if i < 0 then
      pts.getD 0 default - (pts.getD 1 default - pts.getD 0 default)
    else if (l : ℤ) - 1 < i then
      pts.getD (l - 1) default +
        (pts.getD (l - 1) default - pts.getD (l - 2) default)
    else pts.getD i.toNat default
  let p0 := at_ (ip - 1)
  let p1 := at_ ip
  let p2 := at_ (ip + 1)
  let p3 := at_ (ip + 2)
  let t1 := (0.5 : ℝ) • (p2 - p0)
  let t2 := (0.5 : ℝ) • (p3 - p1)
  let w2 := weight * weight
  let w3 := weight * w2
  (2 * w3 - 3 * w2 + 1) • p1 + (w3 - 2 * w2 + weight) • t1 +
    (-2 * w3 + 3 * w2) • p2 + (w3 - w2) • t2

/-- Modelled from the external three.js library: `curve.getPoints(n)`
returns the `n + 1` samples at `t = i/n`. -/
def catmullRomPoints (pts : List R3) (n : ℕ) : List R3 :=
  (List.range (n + 1)).map (fun i => catmullRomPoint pts ((i : ℝ) / (n : ℝ)))

/-- The fitting inputs `generateHyperbolaPath` computes internally
(main.js:1786-1793): the auto-picked interior samples, the best-fit plane
through endpoints and samples, its basis, and the 2D projections. -/
def hyperbolaFitInputs (shortCurve : List R3) :
    (R2 × R2 × List R2) × (R3 × R3 × R3 × R3) :=
  let autoMid := pickAutoThreeSamples shortCurve
  let hd := shortCurve.getD 0 default
  let lst := shortCurve.getD (shortCurve.length - 1) default
  let plane := estimateBestFitPlane (hd :: (autoMid ++ [lst]))
  let basis := buildPlaneBasis plane.2
  let centroid := plane.1
  let end1 := toPlane2D hd centroid basis.1 basis.2.1
  let end2 := toPlane2D lst centroid basis.1 basis.2.1
  let mids2 := autoMid.map (fun p => toPlane2D p centroid basis.1 basis.2.1)
  ((end1, end2, mids2), (centroid, basis.1, basis.2.1, basis.2.2))

/-- The constrained conic fit `generateHyperbolaPath` performs on its
internally computed 2D data (main.js:1795). -/
def hyperbolaFitResult (shortCurve : List R3) : Option Conic :=
  let inp := hyperbolaFitInputs shortCurve
  fitConicConstrainedThrough inp.1.1 inp.1.2.1 inp.1.2.2

/-- `generateHyperbolaPath` (main.js:1783): `none` models the early
return when fewer than 2 short-curve points exist (the path is left
unchanged).  Otherwise fit a constrained conic to the projected data; if
it classifies as a hyperbola, sample it and map the samples back to 3D;
in every other case fall back to Catmull-Rom smoothing through the raw
short-curve points. -/
def generateHyperbolaPath (shortCurve : List R3) (count : ℕ) : Option (List R3) :=
  if shortCurve.length < 2 then none
  else
    let inp := hyperbolaFitInputs shortCurve
    let end1 := inp.1.1
    let end2 := inp.1.2.1
    let mids2 := inp.1.2.2
    let centroid := inp.2.1
    let u := inp.2.2.1
    let v := inp.2.2.2.1
    match hyperbolaFitResult shortCurve with
    | some conic =>
      if isHyperbolaConic conic then
        some ((sampleHyperbolaConicConstrained conic end1 end2 mids2 count).map
          (fun p2 => fromPlane2D p2 centroid u v))
      else some (catmullRomPoints shortCurve count)
    | none => some (catmullRomPoints shortCurve count)

/- ## Design export/import (`exportJSON` main.js:1483,
     `importJSONFile` main.js:1525) -/

/-- The reference-plane state held by the application: the three control
points, the cached global `planeNormal` variable, the normal direction
the plane mesh is oriented to face (set by `updateReferencePlane` via
`lookAt`), the mesh position, and the visibility flag. -/
structure PlaneState where
  cp1 : R3
  cp2 : R3
  cp3 : R3
  cachedNormal : R3
  meshNormal : R3
  meshPos : R3
  visible : Bool

/-- The design state relevant to persistence: the path points and the
optional confirmed reference plane. -/
structure DesignState where
  points : List R3
  plane : Option PlaneState

/-- The serialised reference plane of the JSON design format. -/
structure PlaneJson where
  controlPoints : List R3
  normal : R3
  position : R3
  visible : Bool

/-- The serialised JSON design document. -/
structure JsonData where
  points : List R3
  referencePlane : Option PlaneJson

/-- `THREE.Plane.setFromCoplanarPoints(a, b, c)` (external library): the
normalised cross product `normalize((c − b) × (a − b))`; this is what
`updateReferencePlane` (main.js:921) derives the plane normal from. -/
def threePlaneNormal (a b c : R3) : R3 :=
  normalizeR (crossR (c - b) (a - b))

/-- `exportJSON` (main.js:1483): no document when there are no path
points; otherwise the point coordinates in order plus, when a confirmed
plane with its 3 control points exists, the control points, the cached
`planeNormal`, the mesh position and the visibility flag. -/
def exportJSON (s : DesignState) : Option JsonData :=
  if s.points.isEmpty then none
  else some
    { points := s.points
      referencePlane := s.plane.map (fun ps =>
        { controlPoints := [ps.cp1, ps.cp2, ps.cp3]
          normal := ps.cachedNormal
          position := ps.meshPos
          visible := ps.visible }) }

/-- `importJSONFile` (main.js:1525) on a parsed document: replace the
path points; when a stored plane with exactly 3 control points exists,
reset the plane, re-add the 3 control points (which recomputes the plane
from them: the mesh is positioned at the first point and oriented to the
normal of `setFromCoplanarPoints`), then restore the cached normal, the
mesh position and the visibility flag from the stored fields.  Without a
(well-formed) stored plane the existing plane state is left alone. -/
def importJSONFile (s0 : DesignState) (j : JsonData) : DesignState :=
  let pts := j.points
  match j.referencePlane with
  | some rp =>
    if rp.controlPoints.length = 3 then
      let c1 := rp.controlPoints.getD 0 default
      let c2 := rp.controlPoints.getD 1 default
      let c3 := rp.controlPoints.getD 2 default
      { points := pts
        plane := some
          { cp1 := c1, cp2 := c2, cp3 := c3
            cachedNormal := rp.normal
            meshNormal := threePlaneNormal c1 c2 c3
            meshPos := rp.position
            visible := rp.visible } }
    else { points := pts, plane := s0.plane }
  | none => { points := pts, plane := s0.plane }

/-- In-app well-formedness of a confirmed plane: `updateReferencePlane`
(main.js:921) always orients the plane mesh to the normal computed from
the three control points. -/
def planeWF (ps : PlaneState) : Prop :=
  ps.meshNormal = threePlaneNormal ps.cp1 ps.cp2 ps.cp3

end RealGeometry

open Classical

/- ## Helper lemmas -/

theorem distSq_nonneg (a b : Q3) : 0 ≤ distSq a b := by
  unfold distSq; positivity

theorem distSq_comm (a b : Q3) : distSq a b = distSq b a := by
  unfold distSq; ring

/-- `Real.sqrt` comparison bridge: comparing the Euclidean distances the
source computes is the same as comparing the rational squared distances
used by the embedding. -/
theorem sqrt_lt_sqrt_iff_of_cast (p q : ℚ) (hp : 0 ≤ p) :
    Real.sqrt (p : ℝ) < Real.sqrt (q : ℝ) ↔ p < q := by
  rw [Real.sqrt_lt_sqrt_iff (by exact_mod_cast hp)]
  exact_mod_cast Iff.rfl

theorem clonePoint_eq (p : PathPoint) : clonePoint p = p := rfl

theorem closestIdxGo_lt (cur : Q3) :
    ∀ (tl : List Q3) (i best : ℕ) (bestD : ℚ), best < i →
      closestIdxGo cur tl i best bestD < i + tl.length := by
  intro tl
  induction tl with
  | nil => intro i best bestD h; simpa [closestIdxGo] using h
  | cons p tl ih =>
    intro i best bestD h
    simp only [closestIdxGo]
    split
    · have := ih (i + 1) i (distSq cur p) (Nat.lt_succ_self i)
      simpa [Nat.add_comm, Nat.add_left_comm, Nat.add_assoc] using this
    · have := ih (i + 1) best bestD (Nat.lt_succ_of_lt h)
      simpa [Nat.add_comm, Nat.add_left_comm, Nat.add_assoc] using this

theorem closestIdx_lt (cur hd : Q3) (tl : List Q3) :
    closestIdx cur hd tl < (hd :: tl).length := by
  have := closestIdxGo_lt cur tl 1 0 (distSq cur hd) Nat.zero_lt_one
  simpa [closestIdx, Nat.add_comm] using this

theorem getD_cons_eraseIdx_perm :
    ∀ (l : List Q3) (j : ℕ) (d : Q3), j < l.length →
      (l.getD j d :: l.eraseIdx j).Perm l := by
  intro l
  induction l with
  | nil => intro j d h; simp at h
  | cons a l ih =>
    intro j d h
    cases j with
    | zero => simp [List.getD]
    | succ j =>
      have hj : j < l.length := by simpa using h
      have h1 : ((a :: l).getD (j + 1) d :: (a :: l).eraseIdx (j + 1))
          = l.getD j d :: a :: l.eraseIdx j := by
        simp [List.getD]
      rw [h1]
      exact List.Perm.trans (List.Perm.swap a (l.getD j d) (l.eraseIdx j))
        (List.Perm.cons a (ih j d hj))

theorem tspGo_perm (n : ℕ) :
    ∀ (cur : Q3) (rem : List Q3), rem.length = n → (tspGo cur n rem).Perm rem := by
  induction n with
  | zero =>
    intro cur rem h
    rw [List.length_eq_zero] at h
    subst h; simp [tspGo]
  | succ n ih =>
    intro cur rem h
    match rem with
    | [] => simp at h
    | hd :: tl =>
      simp only [tspGo]
      have hjlt : closestIdx cur hd tl < (hd :: tl).length := closestIdx_lt cur hd tl
      have hlen : ((hd :: tl).eraseIdx (closestIdx cur hd tl)).length = n := by
        rw [List.length_eraseIdx_of_lt hjlt]
        simpa using h
      have hperm := ih ((hd :: tl).getD (closestIdx cur hd tl) hd)
        ((hd :: tl).eraseIdx (closestIdx cur hd tl)) hlen
      exact List.Perm.trans (List.Perm.cons _ hperm)
        (getD_cons_eraseIdx_perm (hd :: tl) (closestIdx cur hd tl) hd hjlt)

/- ## Claim theorems -/

/-- C1.  For every current point sequence (including points carrying
tags) and every mutation, `save(); mutate(); undo()` restores the exact
pre-mutation point sequence, with deep equality including each point's
tags; and `undo()` on an empty history stack is a no-op that leaves the
whole state (hence the sequence) unchanged. -/
theorem save_mutate_undo_restores :
    (∀ (s : EditorState) (f : List PathPoint → List PathPoint),
      (undo (mutatePoints f (saveState s))).points = s.points) ∧
    ∀ s : EditorState, s.history = [] → undo s = s := by
  constructor
  · intro s f
    simp only [undo, mutatePoints, saveState]
    rw [show clonePoint = id from rfl]
    simp
  · intro s h
    cases s with
    | mk pts hist => cases hist with
      | nil => rfl
      | cons a t => simp at h

/-- Witness for C1 at a concrete tagged sequence and a concrete mutation. -/
theorem save_mutate_undo_restores_witness :
    (undo (mutatePoints (fun _ => [])
        (saveState ⟨[⟨1, 2, 3, some PTag.uloop⟩], []⟩))).points
      = [⟨1, 2, 3, some PTag.uloop⟩] ∧
    (⟨[⟨1, 2, 3, some PTag.uloop⟩], []⟩ : EditorState).history = [] ∧
    undo ⟨[⟨1, 2, 3, some PTag.uloop⟩], []⟩ = ⟨[⟨1, 2, 3, some PTag.uloop⟩], []⟩ :=
  ⟨save_mutate_undo_restores.1 ⟨[⟨1, 2, 3, some PTag.uloop⟩], []⟩ (fun _ => []),
   rfl, save_mutate_undo_restores.2 ⟨[⟨1, 2, 3, some PTag.uloop⟩], []⟩ rfl⟩

/-- C4 (counterexample).  The claim says that picking a new contact point
when 2 are already selected evicts only the oldest, leaving the newer
selection plus the new pick (`[1, 2]` here).  The code instead clears the
whole selection and keeps only the new pick. -/
theorem contact_selection_not_fifo :
    handleContactPointSelection [0, 1] 2 ≠ [1, 2] ∧
    handleContactPointSelection [0, 1] 2 = [2] := by
  constructor <;> decide

/-- C4 (amended).  Selecting a new element never errors, and at capacity:
U-loop anchor selection (capacity 3) evicts exactly the oldest selection,
keeping the newer ones in order and appending the new index; contact
point selection (capacity 2) clears the previous selections entirely, so
afterwards only the new pick is selected. -/
theorem selection_capacity_behavior :
    (∀ (sel : List ℕ) (i : ℕ), i ∉ sel → sel.length = 3 →
      handleULoopSelection sel i = sel.tail ++ [i]) ∧
    (∀ (sel : List ℕ) (i : ℕ), i ∉ sel → 2 ≤ sel.length →
      handleContactPointSelection sel i = [i]) := by
  constructor
  · intro sel i hmem hlen
    simp [handleULoopSelection, hmem, hlen]
  · intro sel i hmem hlen
    simp [handleContactPointSelection, hmem, hlen]

/-- Witness for C4 at full concrete selections. -/
theorem selection_capacity_behavior_witness :
    ((3 : ℕ) ∉ ([0, 1, 2] : List ℕ) ∧ ([0, 1, 2] : List ℕ).length = 3 ∧
      handleULoopSelection [0, 1, 2] 3 = [1, 2, 3]) ∧
    ((4 : ℕ) ∉ ([0, 1] : List ℕ) ∧ 2 ≤ ([0, 1] : List ℕ).length ∧
      handleContactPointSelection [0, 1] 4 = [4]) :=
  ⟨⟨by decide, by decide,
      selection_capacity_behavior.1 [0, 1, 2] 3 (by decide) (by decide)⟩,
   ⟨by decide, by decide,
      selection_capacity_behavior.2 [0, 1] 4 (by decide) (by decide)⟩⟩

/-- C3 (counterexample).  For the four collinear points with `x`
coordinates `0, −3, 2, 4` the original order has polyline length
`3 + 5 + 2 = 10`, while the greedy nearest-neighbour order starting from
the first point visits `0, 2, 4, −3` with length `2 + 2 + 7 = 11`: the
greedy order is strictly longer than the input order. -/
theorem tsp_longer_than_input_counterexample :
    totalLength [Q3.mk 0 0 0, Q3.mk (-3) 0 0, Q3.mk 2 0 0, Q3.mk 4 0 0] <
      totalLength (sortContactPointsByTSP
        [Q3.mk 0 0 0, Q3.mk (-3) 0 0, Q3.mk 2 0 0, Q3.mk 4 0 0]) := by
  have hsorted : sortContactPointsByTSP
      [Q3.mk 0 0 0, Q3.mk (-3) 0 0, Q3.mk 2 0 0, Q3.mk 4 0 0]
      = [Q3.mk 0 0 0, Q3.mk 2 0 0, Q3.mk 4 0 0, Q3.mk (-3) 0 0] := by
    norm_num [sortContactPointsByTSP, tspGo, closestIdx, closestIdxGo, distSq,
      List.getD]
  rw [hsorted]
  have e9 : Real.sqrt (9 : ℝ) = 3 := by
    rw [show (9 : ℝ) = 3 ^ 2 by norm_num]
    exact Real.sqrt_sq (by norm_num)
  have e25 : Real.sqrt (25 : ℝ) = 5 := by
    rw [show (25 : ℝ) = 5 ^ 2 by norm_num]
    exact Real.sqrt_sq (by norm_num)
  have e4 : Real.sqrt (4 : ℝ) = 2 := by
    rw [show (4 : ℝ) = 2 ^ 2 by norm_num]
    exact Real.sqrt_sq (by norm_num)
  have e49 : Real.sqrt (49 : ℝ) = 7 := by
    rw [show (49 : ℝ) = 7 ^ 2 by norm_num]
    exact Real.sqrt_sq (by norm_num)
  simp only [totalLength]
  norm_num [distSq]
  rw [e9, e25, e4, e49]
  norm_num

/-- C3 (amended).  The greedy nearest-neighbour ordering always produces
a permutation of the input points and keeps the first point first, but
its total polyline length is not in general bounded by the length of the
original order (see the counterexample). -/
theorem tsp_perm_and_head (points : List Q3) :
    (sortContactPointsByTSP points).Perm points ∧
    (sortContactPointsByTSP points).head? = points.head? := by
  unfold sortContactPointsByTSP
  split
  · exact ⟨List.Perm.refl _, rfl⟩
  · match points with
    | [] => exact ⟨List.Perm.refl _, rfl⟩
    | p :: rest =>
      refine ⟨List.Perm.cons p (tspGo_perm rest.length p rest rfl), rfl⟩

theorem withinQ_comm (p q : Q3) (r : ℚ) : withinQ p q r = withinQ q p r := by
  simp [withinQ, distSq_comm]

theorem centroidQ_singleton (p : Q3) : centroidQ [p] = p := by
  simp [centroidQ]

theorem length_filter_split (p : Q3) (r : ℚ) (l : List Q3) :
    (l.filter (fun q => withinQ p q r)).length +
      (l.filter (fun q => ! withinQ p q r)).length = l.length := by
  induction l with
  | nil => rfl
  | cons a l ih =>
    by_cases h : withinQ p a r = true
    · simp [List.filter, h, ← ih]; omega
    · simp only [Bool.not_eq_true] at h
      simp [List.filter, h, ← ih]; omega

theorem closePairs_sublist (r : ℚ) {l1 l2 : List Q3} (h : l1.Sublist l2) :
    closePairs r l1 ≤ closePairs r l2 := by
  induction h with
  | slnil => exact Nat.le_refl _
  | cons a h ih =>
    calc closePairs r _ ≤ closePairs r _ := ih
      _ ≤ _ := by simp [closePairs]
  | cons₂ a h ih =>
    simp only [closePairs]
    exact Nat.add_le_add (List.Sublist.countP_le _ h) ih

theorem closePairs_ne_nil {r : ℚ} {l : List Q3} (h : closePairs r l ≠ 0) :
    l ≠ [] := by
  intro he; subst he; exact h rfl

theorem clusterPoints_length_of_closePairs_zero (r : ℚ) :
    ∀ l : List Q3, closePairs r l = 0 → (clusterPoints r l).length = l.length := by
  intro l
  induction l using clusterPoints.induct r with
  | case1 => intro _; simp [clusterPoints]
  | case2 p rest ih =>
    intro h
    simp only [closePairs, Nat.add_eq_zero] at h
    have hnear : rest.filter (fun q => withinQ p q r) = [] := by
      rw [List.filter_eq_nil_iff]
      intro a ha
      have := List.countP_eq_zero.mp h.1 a ha
      simpa using this
    have hfar : rest.filter (fun q => ! withinQ p q r) = rest := by
      rw [List.filter_eq_self]
      intro a ha
      have := List.countP_eq_zero.mp h.1 a ha
      simpa using this
    have hfarcp : closePairs r (rest.filter (fun q => ! withinQ p q r)) = 0 := by
      rw [hfar]; exact h.2
    simp only [clusterPoints, List.length_cons]
    rw [ih hfarcp, hfar]

theorem clusterPoints_length_of_closePairs_one (r : ℚ) :
    ∀ l : List Q3, closePairs r l = 1 → (clusterPoints r l).length = l.length - 1 := by
  intro l
  induction l using clusterPoints.induct r with
  | case1 => intro h; simp [closePairs] at h
  | case2 p rest ih =>
    intro h
    simp only [closePairs] at h
    rcases Nat.add_eq_one_iff.mp h with ⟨hc0, hc1⟩ | ⟨hc1, hc0⟩
    · -- the seed is close to nothing: the unique pair lives in the tail
      have hrest_ne : rest ≠ [] := closePairs_ne_nil (by rw [hc1]; exact one_ne_zero)
      have hfar : rest.filter (fun q => ! withinQ p q r) = rest := by
        rw [List.filter_eq_self]
        intro a ha
        have := List.countP_eq_zero.mp hc0 a ha
        simpa using this
      have hfarcp : closePairs r (rest.filter (fun q => ! withinQ p q r)) = 1 := by
        rw [hfar]; exact hc1
      simp only [clusterPoints, List.length_cons]
      rw [ih hfarcp, hfar]
      have : 1 ≤ rest.length := List.length_pos.mpr hrest_ne
      omega
    · -- the seed absorbs exactly one point; no other pair exists
      have hnear_len : (rest.filter (fun q => withinQ p q r)).length = 1 := by
        rw [← List.countP_eq_length_filter]; exact hc1
      have hfar_len : (rest.filter (fun q => ! withinQ p q r)).length
          = rest.length - 1 := by
        have := length_filter_split p r rest
        omega
      have hfarcp : closePairs r (rest.filter (fun q => ! withinQ p q r)) = 0 := by
        have hsub := List.filter_sublist (l := rest) (p := fun q => ! withinQ p q r)
        have := closePairs_sublist r hsub
        omega
      simp only [clusterPoints, List.length_cons]
      rw [clusterPoints_length_of_closePairs_zero r _ hfarcp, hfar_len]
      have : 1 ≤ rest.length := by
        by_contra hlen
        have : rest = [] := by
          cases rest with
          | nil => rfl
          | cons a t => simp at hlen
        subst this; simp at hc1
      omega

theorem isolated_mem_clusterPoints (r : ℚ) :
    ∀ (n : ℕ) (l1 l2 : List Q3) (p : Q3), l1.length ≤ n →
      (∀ q ∈ l1 ++ l2, withinQ p q r = false) →
      p ∈ clusterPoints r (l1 ++ p :: l2) := by
  intro n
  induction n with
  | zero =>
    intro l1 l2 p hlen hiso
    have h1 : l1 = [] := by
      cases l1 with
      | nil => rfl
      | cons a t => simp at hlen
    subst h1
    simp only [List.nil_append] at hiso ⊢
    have hnear : l2.filter (fun q => withinQ p q r) = [] := by
      rw [List.filter_eq_nil_iff]
      intro a ha
      simp [hiso a ha]
    simp only [clusterPoints, hnear, centroidQ_singleton]
    exact List.mem_cons_self _ _
  | succ n ih =>
    intro l1 l2 p hlen hiso
    cases l1 with
    | nil =>
      exact ih [] l2 p (Nat.zero_le n) hiso
    | cons h t =>
      have hph : withinQ p h r = false := hiso h (by simp)
      have hhp : withinQ h p r = false := by rw [← withinQ_comm]; exact hph
      simp only [List.cons_append, clusterPoints]
      have hsplit : (t ++ p :: l2).filter (fun q => ! withinQ h q r)
          = t.filter (fun q => ! withinQ h q r) ++
            p :: l2.filter (fun q => ! withinQ h q r) := by
        rw [List.filter_append]
        congr 1
        simp [List.filter, hhp]
      rw [hsplit]
      refine List.mem_cons_of_mem _ ?_
      apply ih
      · calc (t.filter (fun q => ! withinQ h q r)).length ≤ t.length :=
          List.length_filter_le _ _
          _ ≤ n := by simpa using hlen
      · intro q hq
        apply hiso
        rcases List.mem_append.mp hq with hq1 | hq2
        · exact List.mem_append.mpr
            (Or.inl (List.mem_cons_of_mem h (List.mem_of_mem_filter hq1)))
        · exact List.mem_append.mpr (Or.inr (List.mem_of_mem_filter hq2))

/-- C9.  (a) For every list of points in which exactly one pair lies
within the cluster radius of each other, clustering produces exactly
`N − 1` output points.  (b) Every input point lying farther than the
cluster radius from all other input points appears in the output
unmerged, as its own (singleton-centroid) output point. -/
theorem clusterPoints_merge_counts :
    (∀ (r : ℚ) (pts : List Q3), closePairs r pts = 1 →
      (clusterPoints r pts).length = pts.length - 1) ∧
    (∀ (r : ℚ) (l1 l2 : List Q3) (p : Q3),
      (∀ q ∈ l1 ++ l2, withinQ p q r = false) →
      p ∈ clusterPoints r (l1 ++ p :: l2)) :=
  ⟨fun r pts h => clusterPoints_length_of_closePairs_one r pts h,
   fun r l1 l2 p hiso => isolated_mem_clusterPoints r l1.length l1 l2 p
     (Nat.le_refl _) hiso⟩

/-- Witness for C9: three points of which exactly the last two are within
radius 1 cluster to `3 − 1 = 2` outputs, and an isolated point stays in
the output. -/
theorem clusterPoints_merge_counts_witness :
    (closePairs 1 [Q3.mk 0 0 0, Q3.mk 10 0 0, Q3.mk 10 (1/2) 0] = 1 ∧
      (clusterPoints 1 [Q3.mk 0 0 0, Q3.mk 10 0 0, Q3.mk 10 (1/2) 0]).length
        = [Q3.mk 0 0 0, Q3.mk 10 0 0, Q3.mk 10 (1/2) 0].length - 1) ∧
    ((∀ q ∈ [Q3.mk 0 0 0] ++ [Q3.mk 20 0 0], withinQ (Q3.mk 10 0 0) q 1 = false) ∧
      Q3.mk 10 0 0 ∈ clusterPoints 1
        ([Q3.mk 0 0 0] ++ Q3.mk 10 0 0 :: [Q3.mk 20 0 0])) := by
  have h1 : closePairs 1 [Q3.mk 0 0 0, Q3.mk 10 0 0, Q3.mk 10 (1/2) 0] = 1 := by
    norm_num [closePairs, List.countP, List.countP.go, withinQ, distSq]
  have h2 : ∀ q ∈ [Q3.mk 0 0 0] ++ [Q3.mk 20 0 0],
      withinQ (Q3.mk 10 0 0) q 1 = false := by
    intro q hq
    simp only [List.singleton_append, List.mem_cons, List.mem_singleton,
      List.not_mem_nil, or_false] at hq
    rcases hq with hq | hq <;> subst hq <;> norm_num [withinQ, distSq]
  exact ⟨⟨h1, clusterPoints_merge_counts.1 1 _ h1⟩,
    ⟨h2, clusterPoints_merge_counts.2 1 [Q3.mk 0 0 0] [Q3.mk 20 0 0] (Q3.mk 10 0 0) h2⟩⟩

theorem readAddr_hSaveState_of_lt (s : HeapState) (a : ℕ) (h : a < s.heap.length) :
    readAddr (hSaveState s) a = readAddr s a := by
  simp only [readAddr, hSaveState, List.getD_eq_getElem?_getD]
  rw [List.getElem?_append_left h]

theorem readLive_hSaveState (s : HeapState) (hwf : wfH s) :
    readLive (hSaveState s) = readLive s := by
  simp only [readLive, hSaveState]
  exact List.map_congr_left (fun a ha => readAddr_hSaveState_of_lt s a (hwf a ha))

theorem range'_map_getD_append :
    ∀ (tail heap : List PathPoint),
      (List.range' heap.length tail.length).map
        (fun a => (heap ++ tail).getD a default) = tail := by
  intro tail
  induction tail with
  | nil => intro heap; simp
  | cons t ts ih =>
    intro heap
    simp only [List.length_cons, List.range'_succ, List.map_cons]
    have h1 : (heap ++ t :: ts).getD heap.length default = t := by
      simp only [List.getD_eq_getElem?_getD]
      rw [List.getElem?_append_right (Nat.le_refl _)]
      simp
    have hlen : heap.length + 1 = (heap ++ [t]).length := by simp
    have happ : (heap ++ [t]) ++ ts = heap ++ t :: ts := by simp
    rw [h1, hlen, ← happ, ih (heap ++ [t])]

theorem readAddr_set_ne (s : HeapState) (t : ℕ) (x : PathPoint) (a : ℕ) (h : a ≠ t) :
    (s.heap.set t x).getD a default = s.heap.getD a default := by
  simp only [List.getD_eq_getElem?_getD]
  rw [List.getElem?_set_ne (Ne.symm h)]

/-- C10.  Pushing a history snapshot leaves the live point sequence
unchanged, the stored snapshot holds the pre-mutation values, and the
snapshot shares no mutable structure with the live sequence: a later
in-place drag mutation of a live point changes no stored snapshot
(neither the freshly pushed one nor any older one), positions and tags
alike. -/
theorem saveState_snapshot_isolation
    (s : HeapState) (i : ℕ) (v : ℚ × ℚ × ℚ)
    (hwf : wfH s) (hsep : sepH s) (hi : i < s.live.length) :
    readLive (hSaveState s) = readLive s ∧
    readSnap (hSaveState s) (List.range' s.heap.length s.live.length)
      = readLive s ∧
    ∀ snap ∈ (hSaveState s).history,
      readSnap (dragMutate (hSaveState s) i v) snap
        = readSnap (hSaveState s) snap := by
  have htarget_mem : s.live.getD i 0 ∈ s.live := by
    rw [List.getD_eq_getElem s.live 0 hi]
    exact List.getElem_mem hi
  have htarget_lt : s.live.getD i 0 < s.heap.length := hwf _ htarget_mem
  refine ⟨readLive_hSaveState s hwf, ?_, ?_⟩
  · -- the new snapshot reads back exactly the pre-mutation live values
    simp only [readSnap, hSaveState, readLive]
    have := range'_map_getD_append (s.live.map (readAddr s)) s.heap
    rw [List.length_map] at this
    simpa only [readAddr] using this
  · -- no later drag mutation touches any stored snapshot
    intro snap hsnap
    simp only [readSnap, dragMutate]
    apply List.map_congr_left
    intro a ha
    have hane : a ≠ (hSaveState s).live.getD i 0 := by
      simp only [hSaveState] at hsnap ha ⊢
      rcases List.mem_cons.mp hsnap with hnew | hold
      · subst hnew
        have := List.mem_range'_1.mp ha
        omega
      · exact fun he => (hsep snap hold a ha) (he ▸ htarget_mem)
    exact readAddr_set_ne (hSaveState s) _ _ a hane

/-- Witness for C10 at a concrete two-point heap. -/
theorem saveState_snapshot_isolation_witness :
    wfH ⟨[⟨1, 1, 1, none⟩, ⟨2, 2, 2, some PTag.uloop⟩], [0, 1], []⟩ ∧
    sepH ⟨[⟨1, 1, 1, none⟩, ⟨2, 2, 2, some PTag.uloop⟩], [0, 1], []⟩ ∧
    (0 : ℕ) < ([0, 1] : List ℕ).length ∧
    readLive (hSaveState ⟨[⟨1, 1, 1, none⟩, ⟨2, 2, 2, some PTag.uloop⟩], [0, 1], []⟩)
      = readLive ⟨[⟨1, 1, 1, none⟩, ⟨2, 2, 2, some PTag.uloop⟩], [0, 1], []⟩ ∧
    ∀ snap ∈ (hSaveState
        ⟨[⟨1, 1, 1, none⟩, ⟨2, 2, 2, some PTag.uloop⟩], [0, 1], []⟩).history,
      readSnap (dragMutate (hSaveState
          ⟨[⟨1, 1, 1, none⟩, ⟨2, 2, 2, some PTag.uloop⟩], [0, 1], []⟩) 0 (9, 9, 9)) snap
        = readSnap (hSaveState
          ⟨[⟨1, 1, 1, none⟩, ⟨2, 2, 2, some PTag.uloop⟩], [0, 1], []⟩) snap := by
  have hwf : wfH ⟨[⟨1, 1, 1, none⟩, ⟨2, 2, 2, some PTag.uloop⟩], [0, 1], []⟩ := by
    intro a ha
    simp only [List.mem_cons, List.not_mem_nil, or_false, List.mem_singleton] at ha
    rcases ha with h | h <;> subst h <;> simp
  have hsep : sepH ⟨[⟨1, 1, 1, none⟩, ⟨2, 2, 2, some PTag.uloop⟩], [0, 1], []⟩ := by
    intro snap hsnap; simp at hsnap
  have hi : (0 : ℕ) < ([0, 1] : List ℕ).length := by simp
  have := saveState_snapshot_isolation
    ⟨[⟨1, 1, 1, none⟩, ⟨2, 2, 2, some PTag.uloop⟩], [0, 1], []⟩ 0 (9, 9, 9) hwf hsep hi
  exact ⟨hwf, hsep, hi, this.1, this.2.2⟩

/- ## Real-geometry helper lemmas -/

theorem R3.eq_iff (a b : R3) : a = b ↔ a.x = b.x ∧ a.y = b.y ∧ a.z = b.z := by
  constructor
  · intro h; subst h; exact ⟨rfl, rfl, rfl⟩
  · intro ⟨h1, h2, h3⟩; cases a; cases b; simp_all

@[simp] theorem R3.add_x (a b : R3) : (a + b).x = a.x + b.x := rfl

@[simp] theorem R3.add_y (a b : R3) : (a + b).y = a.y + b.y := rfl

@[simp] theorem R3.add_z (a b : R3) : (a + b).z = a.z + b.z := rfl

@[simp] theorem R3.sub_x (a b : R3) : (a - b).x = a.x - b.x := rfl

@[simp] theorem R3.sub_y (a b : R3) : (a - b).y = a.y - b.y := rfl

@[simp] theorem R3.sub_z (a b : R3) : (a - b).z = a.z - b.z := rfl

@[simp] theorem R3.smul_x (t : ℝ) (a : R3) : (t • a).x = t * a.x := rfl

@[simp] theorem R3.smul_y (t : ℝ) (a : R3) : (t • a).y = t * a.y := rfl

@[simp] theorem R3.smul_z (t : ℝ) (a : R3) : (t • a).z = t * a.z := rfl

theorem sqrtEval (a b : ℝ) (hb : 0 ≤ b) (h : b ^ 2 = a) : Real.sqrt a = b := by
  rw [← h]; exact Real.sqrt_sq hb

/-- C8.  The U-loop generated from three anchors uses the height
`|mid − midpoint(start,end)| − |start−end|/2` (distance from the bend
apex to the chord midpoint minus half the chord length); the value flows
into the geometry unclamped (the first generated point is the start
anchor raised by `height + 1` millimetres along the opening direction),
and it is negative for anchors whose middle point is closer to the chord
midpoint than half the chord length, e.g. `(0,0,0), (2,1,0), (4,0,0)`. -/
theorem uloop_height_formula_unclamped :
    (∀ p_start p_mid p_end : R3,
      uLoopHeight p_start p_mid p_end
        = distR p_mid (lerpR p_start p_end (1 / 2)) - distR p_start p_end / 2 ∧
      (generateULoopFromThreePoints p_start p_mid p_end).head?
        = some (p_start + (uLoopHeight p_start p_mid p_end + 1) •
            uLoopYHat p_start p_mid p_end)) ∧
    uLoopHeight ⟨0, 0, 0⟩ ⟨2, 1, 0⟩ ⟨4, 0, 0⟩ < 0 := by
  constructor
  · intro p_start p_mid p_end
    constructor
    · rfl
    · simp only [generateULoopFromThreePoints, generateULoopGeometry,
        List.cons_append, List.head?]
      congr 1
      rw [R3.eq_iff]
      refine ⟨?_, ?_, ?_⟩ <;> simp <;> ring
  · have hlerp : lerpR ⟨0, 0, 0⟩ ⟨4, 0, 0⟩ (1 / 2) = ⟨2, 0, 0⟩ := by
      rw [R3.eq_iff]
      refine ⟨?_, ?_, ?_⟩ <;> simp [lerpR] <;> norm_num
    have h1 : lengthR ((⟨2, 1, 0⟩ : R3) - ⟨2, 0, 0⟩) = 1 := by
      unfold lengthR normSqR
      apply sqrtEval _ _ (by norm_num)
      norm_num
    have h2 : distR ⟨0, 0, 0⟩ ⟨4, 0, 0⟩ = 4 := by
      unfold distR lengthR normSqR
      apply sqrtEval _ _ (by norm_num)
      norm_num
    simp only [uLoopHeight, hlerp]
    rw [h1, h2]
    norm_num

theorem R3.add_sub_cancel_right (a b : R3) : a + b - b = a := by
  rw [R3.eq_iff]
  refine ⟨?_, ?_, ?_⟩ <;> simp

theorem getLast?_cons_append_singleton {α : Type} (a b : α) (l : List α) :
    (a :: (l ++ [b])).getLast? = some b := by
  rw [show a :: (l ++ [b]) = (a :: l) ++ [b] by simp, List.getLast?_concat]

/-- Rotation about the `z` axis preserves the squared norm of vectors in
the `z = 0` plane (only `sin² + cos² = 1` at the half angle is needed). -/
theorem applyAxisAngle_z_normSq (v : R3) (hz : v.z = 0) (θ : ℝ) :
    normSqR (applyAxisAngle v ⟨0, 0, 1⟩ θ) = normSqR v := by
  have hsc := Real.sin_sq_add_cos_sq (θ / 2)
  simp only [applyAxisAngle, crossR, normSqR, R3.add_x, R3.add_y, R3.add_z,
    R3.smul_x, R3.smul_y, R3.smul_z, hz]
  linear_combination (4 * Real.sin (θ / 2) ^ 2 * (v.x ^ 2 + v.y ^ 2)) * hsc

/-- C7.  The U-loop generated from base anchors `(0,0,0)` and `(10,0,0)`
with up-axis `(0,1,0)` and height 5: the two arm tops are the anchors
raised by the height plus the fixed 1.0 mm end offset, i.e. `(0,6,0)` and
`(10,6,0)`; after the start arm top come exactly 16 semicircle-related
points (the 15 interior samples plus the arrival arm top); and every one
of those 16 points lies at distance `|armTop − semicenter|` from the
semicircle center `(5,6,0)`. -/
theorem uloop_example_scenario :
    (generateULoopGeometry ⟨0, 0, 0⟩ ⟨10, 0, 0⟩ ⟨0, 1, 0⟩ 5).head?
        = some (⟨0, 5, 0⟩ + (1 : ℝ) • ⟨0, 1, 0⟩) ∧
    (generateULoopGeometry ⟨0, 0, 0⟩ ⟨10, 0, 0⟩ ⟨0, 1, 0⟩ 5).getLast?
        = some (⟨10, 5, 0⟩ + (1 : ℝ) • ⟨0, 1, 0⟩) ∧
    (generateULoopGeometry ⟨0, 0, 0⟩ ⟨10, 0, 0⟩ ⟨0, 1, 0⟩ 5).tail.length = 16 ∧
    ∀ p ∈ (generateULoopGeometry ⟨0, 0, 0⟩ ⟨10, 0, 0⟩ ⟨0, 1, 0⟩ 5).tail,
      distR p ⟨5, 6, 0⟩ = distR (⟨0, 6, 0⟩ : R3) ⟨5, 6, 0⟩ := by
  have hA : (R3.mk 0 0 0) + (5 : ℝ) • R3.mk 0 1 0 + (1 : ℝ) • R3.mk 0 1 0
      = R3.mk 0 6 0 := by
    rw [R3.eq_iff]; refine ⟨?_, ?_, ?_⟩ <;> simp <;> norm_num
  have hB : (R3.mk 10 0 0) + (5 : ℝ) • R3.mk 0 1 0 + (1 : ℝ) • R3.mk 0 1 0
      = R3.mk 10 6 0 := by
    rw [R3.eq_iff]; refine ⟨?_, ?_, ?_⟩ <;> simp <;> norm_num
  have hC : lerpR (R3.mk 0 6 0) (R3.mk 10 6 0) (1 / 2) = R3.mk 5 6 0 := by
    rw [R3.eq_iff]
    refine ⟨?_, ?_, ?_⟩ <;> simp [lerpR] <;> norm_num
  have hD : (R3.mk 0 6 0) - R3.mk 5 6 0 = R3.mk (-5) 0 0 := by
    rw [R3.eq_iff]; refine ⟨?_, ?_, ?_⟩ <;> simp <;> norm_num
  have hsub : (R3.mk 10 0 0) - R3.mk 0 0 0 = R3.mk 10 0 0 := by
    rw [R3.eq_iff]; refine ⟨?_, ?_, ?_⟩ <;> simp
  have hxhat : normalizeR (R3.mk 10 0 0) = R3.mk 1 0 0 := by
    have hlen : lengthR (R3.mk 10 0 0) = 10 := by
      unfold lengthR normSqR
      apply sqrtEval _ _ (by norm_num)
      norm_num
    rw [R3.eq_iff]
    refine ⟨?_, ?_, ?_⟩ <;> simp [normalizeR, hlen] <;> norm_num
  have hcross : crossR (R3.mk 1 0 0) (R3.mk 0 1 0) = R3.mk 0 0 1 := by
    rw [R3.eq_iff]; refine ⟨?_, ?_, ?_⟩ <;> simp [crossR]
  have hE : normalizeR (R3.mk 0 0 1) = R3.mk 0 0 1 := by
    have hlen : lengthR (R3.mk 0 0 1) = 1 := by
      unfold lengthR normSqR
      apply sqrtEval _ _ (by norm_num)
      norm_num
    rw [R3.eq_iff]
    refine ⟨?_, ?_, ?_⟩ <;> simp [normalizeR, hlen]
  have hlen5 : lengthR (R3.mk (-5) 0 0) = 5 := by
    unfold lengthR normSqR
    apply sqrtEval _ _ (by norm_num)
    norm_num
  simp only [generateULoopGeometry, hA, hB, hC, hD, hsub, hxhat, hcross, hE]
  refine ⟨?_, ?_, ?_, ?_⟩
  · simp only [List.cons_append, List.head?]
    congr 1
    rw [R3.eq_iff]
    refine ⟨?_, ?_, ?_⟩ <;> simp <;> norm_num
  · rw [List.getLast?_concat]
    congr 1
    rw [R3.eq_iff]
    refine ⟨?_, ?_, ?_⟩ <;> simp <;> norm_num
  · simp only [List.cons_append, List.tail_cons, List.length_append,
      List.length_map, List.length_range', List.length_singleton]
  · intro p hp
    have hrhs : distR (R3.mk 0 6 0) (R3.mk 5 6 0) = 5 := by
      unfold distR
      rw [hD, hlen5]
    simp only [List.cons_append, List.tail_cons] at hp
    rcases List.mem_append.mp hp with hmap | hlast
    · obtain ⟨i, _, rfl⟩ := List.mem_map.mp hmap
      rw [hrhs]
      unfold distR
      rw [R3.add_sub_cancel_right]
      unfold lengthR
      rw [applyAxisAngle_z_normSq _ rfl]
      apply sqrtEval _ _ (by norm_num)
      simp [normSqR]
    · have : p = R3.mk 10 6 0 := by simpa using hlast
      subst this
      rw [hrhs]
      have hsub2 : (R3.mk 10 6 0) - R3.mk 5 6 0 = R3.mk 5 0 0 := by
        rw [R3.eq_iff]; refine ⟨?_, ?_, ?_⟩ <;> simp <;> norm_num
      unfold distR
      rw [hsub2]
      unfold lengthR normSqR
      apply sqrtEval _ _ (by norm_num)
      norm_num

/-- C2.  For every design with a nonempty path and a defined reference
plane, exporting to the JSON format and importing that JSON into any
prior state reproduces the path point sequence exactly (same points, same
order) and an equivalent plane state.  The well-formedness hypothesis
`planeWF` states that the plane mesh faces the normal recomputed from its
3 control points (true of every plane the app defines); under it the
importer — which rebuilds the plane from the 3 stored control points and
then restores the cached normal, position and visibility — returns the
original plane state. -/
theorem export_import_roundTrip (s0 s : DesignState) (ps : PlaneState)
    (hne : s.points ≠ []) (hplane : s.plane = some ps) (hwf : planeWF ps) :
    ∃ j, exportJSON s = some j ∧ importJSONFile s0 j = s := by
  refine ⟨{ points := s.points
            referencePlane := some
              { controlPoints := [ps.cp1, ps.cp2, ps.cp3]
                normal := ps.cachedNormal
                position := ps.meshPos
                visible := ps.visible } }, ?_, ?_⟩
  · unfold exportJSON
    rw [if_neg (by simpa using hne), hplane]
    rfl
  · unfold importJSONFile
    simp only [List.length_cons, List.length_nil, if_pos]
    cases s with
    | mk pts pl =>
      simp only at hplane
      subst hplane
      cases ps with
      | mk c1 c2 c3 cn mn mp vis =>
        simp only [List.getD, List.get?, Option.getD_some]
        unfold planeWF at hwf
        simp only at hwf
        rw [← hwf]

/-- Witness for C2 at a concrete design: one path point and the plane
through `(0,0,0)`, `(1,0,0)`, `(0,1,0)` (normal `(0,0,1)`). -/
theorem export_import_roundTrip_witness :
    ((⟨[⟨1, 2, 3⟩], some ⟨⟨0, 0, 0⟩, ⟨1, 0, 0⟩, ⟨0, 1, 0⟩, ⟨0, 0, 1⟩, ⟨0, 0, 1⟩,
        ⟨0, 0, 0⟩, true⟩⟩ : DesignState).points ≠ [] ∧
      planeWF ⟨⟨0, 0, 0⟩, ⟨1, 0, 0⟩, ⟨0, 1, 0⟩, ⟨0, 0, 1⟩, ⟨0, 0, 1⟩,
        ⟨0, 0, 0⟩, true⟩) ∧
    ∃ j, exportJSON (⟨[⟨1, 2, 3⟩], some ⟨⟨0, 0, 0⟩, ⟨1, 0, 0⟩, ⟨0, 1, 0⟩,
        ⟨0, 0, 1⟩, ⟨0, 0, 1⟩, ⟨0, 0, 0⟩, true⟩⟩ : DesignState) = some j ∧
      importJSONFile ⟨[], none⟩ j
        = ⟨[⟨1, 2, 3⟩], some ⟨⟨0, 0, 0⟩, ⟨1, 0, 0⟩, ⟨0, 1, 0⟩, ⟨0, 0, 1⟩,
            ⟨0, 0, 1⟩, ⟨0, 0, 0⟩, true⟩⟩ := by
  have hwf : planeWF ⟨⟨0, 0, 0⟩, ⟨1, 0, 0⟩, ⟨0, 1, 0⟩, ⟨0, 0, 1⟩, ⟨0, 0, 1⟩,
      ⟨0, 0, 0⟩, true⟩ := by
    unfold planeWF threePlaneNormal
    simp only
    have hcr : crossR ((R3.mk 0 1 0) - R3.mk 1 0 0) ((R3.mk 0 0 0) - R3.mk 1 0 0)
        = R3.mk 0 0 1 := by
      rw [R3.eq_iff]
      refine ⟨?_, ?_, ?_⟩ <;> simp [crossR] <;> norm_num
    rw [hcr]
    have hlen : lengthR (R3.mk 0 0 1) = 1 := by
      unfold lengthR normSqR
      apply sqrtEval _ _ (by norm_num)
      norm_num
    rw [R3.eq_iff]
    refine ⟨?_, ?_, ?_⟩ <;> simp [normalizeR, hlen]
  exact ⟨⟨by simp, hwf⟩,
    export_import_roundTrip ⟨[], none⟩ _ _ (by simp) rfl hwf⟩

/-- At the `x` of any point lying exactly on the conic, the per-`x`
quadratic in `y` has a nonnegative discriminant, so `solveConicY`
succeeds. -/
theorem solveConicY_isSome (q : Conic) (p : R2) (h : conicEval q p = 0) :
    ∃ ys : ℝ × ℝ, solveConicY q p.x = some ys := by
  unfold conicEval at h
  have hroot : q.c * p.y ^ 2 + (q.b * p.x + q.e) * p.y +
      (q.a * p.x ^ 2 + q.d * p.x + q.f) = 0 := by
    linear_combination h
  have hdisc : (q.b * p.x + q.e) ^ 2 -
      4 * q.c * (q.a * p.x ^ 2 + q.d * p.x + q.f)
      = (2 * q.c * p.y + (q.b * p.x + q.e)) ^ 2 := by
    linear_combination (-4 * q.c) * hroot
  unfold solveConicY
  simp only
  rw [if_neg]
  · exact ⟨_, rfl⟩
  · rw [not_lt, hdisc]
    positivity

theorem set_append_length {α : Type} :
    ∀ (l : List α) (q e : α) (t : List α),
      (l ++ q :: t).set l.length e = l ++ e :: t := by
  intro l
  induction l with
  | nil => intro q e t; rfl
  | cons a l ih =>
    intro q e t
    simp only [List.cons_append, List.length_cons, List.set_cons_succ]
    rw [ih]

theorem endpoint_overwrite (l : List R2) (q1 q2 e1 e2 : R2) :
    ((((q1 :: l) ++ [q2]).set 0 e1).set (((q1 :: l) ++ [q2]).length - 1) e2).head?
      = some e1 ∧
    ((((q1 :: l) ++ [q2]).set 0 e1).set (((q1 :: l) ++ [q2]).length - 1) e2).getLast?
      = some e2 := by
  have hlen : ((q1 :: l) ++ [q2]).length - 1 = l.length + 1 := by
    simp
  rw [hlen]
  simp only [List.cons_append, List.set_cons_zero, List.set_cons_succ]
  rw [set_append_length]
  exact ⟨rfl, getLast?_cons_append_singleton e1 e2 l⟩

/-- The sampled list of `sampleHyperbolaConicConstrained`, before the
endpoint overwrite, always keeps its first and last samples (the two
endpoint `x` values, where the conic constraint guarantees a real
solution), so it has the shape `first :: middle ++ [last]`. -/
theorem filterMap_sample_decomp (conic : Conic) (branchYs : List ℝ)
    (pa pb : R2) (n : ℕ)
    (ha : conicEval conic pa = 0) (hb : conicEval conic pb = 0) :
    ∃ (q1 q2 : R2) (l : List R2),
      ((List.range (n + 2)).map
        (fun i : ℕ => pa.x + (pb.x - pa.x) * ((i : ℝ) / (((n + 2 : ℕ) : ℝ) - 1)))).filterMap
        (fun x => match solveConicY conic x with
          | none => none
          | some ys => some (R2.mk x (selectBranch ys.1 ys.2 branchYs)))
      = (q1 :: l) ++ [q2] := by
  obtain ⟨ysa, hysa⟩ := solveConicY_isSome conic pa ha
  obtain ⟨ysb, hysb⟩ := solveConicY_isSome conic pb hb
  have hg0 : pa.x + (pb.x - pa.x) * (((0 : ℕ) : ℝ) / (((n + 2 : ℕ) : ℝ) - 1))
      = pa.x := by
    push_cast
    ring
  have hglast : pa.x + (pb.x - pa.x) * (((n + 1 : ℕ) : ℝ) / (((n + 2 : ℕ) : ℝ) - 1))
      = pb.x := by
    have hden : (((n + 2 : ℕ) : ℝ) - 1) = ((n : ℝ) + 1) := by
      push_cast
      ring
    have hnum : (((n + 1 : ℕ) : ℝ)) = ((n : ℝ) + 1) := by
      push_cast
      ring
    have hpos : (0 : ℝ) < (n : ℝ) + 1 := by positivity
    rw [hden, hnum, div_self (ne_of_gt hpos)]
    ring
  rw [show n + 2 = (n + 1) + 1 from rfl, List.range_succ (n + 1),
    List.range_succ_eq_map n]
  simp only [List.map_append, List.map_cons, List.map_nil]
  rw [List.filterMap_append]
  rw [hg0, hglast]
  rw [List.filterMap_cons_some (show _ = some (R2.mk pa.x
    (selectBranch ysa.1 ysa.2 branchYs)) by simp only [hysa])]
  simp only [List.filterMap_cons, List.filterMap_nil, hysb]
  exact ⟨_, _, _, rfl⟩

/-- C5.  For every conic passing exactly through the two supplied 2D
endpoints (which is what the constrained fit produces, in exact
arithmetic) and every sample count of at least 2, the output of
`sampleHyperbolaConicConstrained` has its first point exactly equal to
the first endpoint and its last point exactly equal to the second
endpoint: both endpoint `x` samples admit real solutions, so the list is
nonempty with at least two entries, and the final overwrite installs the
exact endpoints. -/
theorem sample_constrained_endpoints_exact (conic : Conic) (end1 end2 : R2)
    (mids : List R2) (count : ℕ) (hcount : 2 ≤ count)
    (h1 : conicEval conic end1 = 0) (h2 : conicEval conic end2 = 0) :
    (sampleHyperbolaConicConstrained conic end1 end2 mids count).head? = some end1 ∧
    (sampleHyperbolaConicConstrained conic end1 end2 mids count).getLast?
      = some end2 := by
  obtain ⟨n, rfl⟩ : ∃ n, count = n + 2 := ⟨count - 2, by omega⟩
  simp only [sampleHyperbolaConicConstrained]
  by_cases hrev : end2.x < end1.x
  · simp only [if_pos hrev]
    obtain ⟨q1, q2, l, hcore⟩ := filterMap_sample_decomp conic
      (precomputeBranchSelector mids) end2 end1 n h2 h1
    rw [hcore]
    rw [show (((q1 :: l) ++ [q2]).reverse) = (q2 :: l.reverse) ++ [q1] by simp]
    rw [if_neg (by simp)]
    exact endpoint_overwrite l.reverse q2 q1 end1 end2
  · simp only [if_neg hrev]
    obtain ⟨q1, q2, l, hcore⟩ := filterMap_sample_decomp conic
      (precomputeBranchSelector mids) end1 end2 n h1 h2
    rw [hcore]
    rw [if_neg (by simp)]
    exact endpoint_overwrite l q1 q2 end1 end2

/-- Witness for C5 on the hyperbola `xy = 1` through `(1,1)` and
`(2,1/2)` with one interior sample. -/
theorem sample_constrained_endpoints_exact_witness :
    ((2 : ℕ) ≤ 2 ∧
      conicEval ⟨0, 1, 0, 0, 0, -1⟩ ⟨1, 1⟩ = 0 ∧
      conicEval ⟨0, 1, 0, 0, 0, -1⟩ ⟨2, 1 / 2⟩ = 0) ∧
    (sampleHyperbolaConicConstrained ⟨0, 1, 0, 0, 0, -1⟩ ⟨1, 1⟩ ⟨2, 1 / 2⟩
        [⟨3 / 2, 2 / 3⟩] 2).head? = some ⟨1, 1⟩ ∧
    (sampleHyperbolaConicConstrained ⟨0, 1, 0, 0, 0, -1⟩ ⟨1, 1⟩ ⟨2, 1 / 2⟩
        [⟨3 / 2, 2 / 3⟩] 2).getLast? = some ⟨2, 1 / 2⟩ := by
  have hc1 : conicEval ⟨0, 1, 0, 0, 0, -1⟩ (⟨1, 1⟩ : R2) = 0 := by
    unfold conicEval
    norm_num
  have hc2 : conicEval ⟨0, 1, 0, 0, 0, -1⟩ (⟨2, 1 / 2⟩ : R2) = 0 := by
    unfold conicEval
    norm_num
  exact ⟨⟨Nat.le_refl 2, hc1, hc2⟩,
    sample_constrained_endpoints_exact ⟨0, 1, 0, 0, 0, -1⟩ ⟨1, 1⟩ ⟨2, 1 / 2⟩
      [⟨3 / 2, 2 / 3⟩] 2 (Nat.le_refl 2) hc1 hc2⟩

/-- C6.  A fitted conic `(A,B,C,D,E,F)` is classified as a hyperbola
exactly when the discriminant `4AC − B²` is negative; and for every
short curve (of at least 2 points, otherwise the generator leaves the
path untouched) the generated path is fully characterised by the fit
outcome: when the constrained fit returns no conic, or returns a conic
that fails the hyperbola classification, the generator does not use the
conic and produces the Catmull-Rom smoothing of the raw short-curve
points; only a classified hyperbola is sampled and mapped back to 3D. -/
theorem hyperbola_classification_and_fallback :
    (∀ conic : Conic, isHyperbolaConic conic ↔ 4 * conic.a * conic.c - conic.b ^ 2 < 0) ∧
    ∀ (shortCurve : List R3) (count : ℕ), 2 ≤ shortCurve.length →
      generateHyperbolaPath shortCurve count = some (
        match hyperbolaFitResult shortCurve with
        | none => catmullRomPoints shortCurve count
        | some conic =>
          if isHyperbolaConic conic then
            (sampleHyperbolaConicConstrained conic
                (hyperbolaFitInputs shortCurve).1.1
                (hyperbolaFitInputs shortCurve).1.2.1
                (hyperbolaFitInputs shortCurve).1.2.2 count).map
              (fun p2 => fromPlane2D p2 (hyperbolaFitInputs shortCurve).2.1
                (hyperbolaFitInputs shortCurve).2.2.1
                (hyperbolaFitInputs shortCurve).2.2.2.1)
          else catmullRomPoints shortCurve count) := by
  constructor
  · intro conic
    unfold isHyperbolaConic
    constructor
    · intro h; nlinarith
    · intro h; nlinarith
  · intro shortCurve count hlen
    simp only [generateHyperbolaPath]
    rw [if_neg (Nat.not_lt.mpr hlen)]
    cases hfit : hyperbolaFitResult shortCurve with
    | none => simp only [hfit]
    | some conic =>
      simp only [hfit]
      by_cases hc : isHyperbolaConic conic
      · rw [if_pos hc, if_pos hc]
      · rw [if_neg hc, if_neg hc]

/-- Witness for C6 at a concrete short curve of length 2. -/
theorem hyperbola_classification_and_fallback_witness :
    2 ≤ ([⟨0, 0, 0⟩, ⟨0, 0, 0⟩] : List R3).length ∧
    generateHyperbolaPath [⟨0, 0, 0⟩, ⟨0, 0, 0⟩] 5 = some (
      match hyperbolaFitResult [⟨0, 0, 0⟩, ⟨0, 0, 0⟩] with
      | none => catmullRomPoints [⟨0, 0, 0⟩, ⟨0, 0, 0⟩] 5
      | some conic =>
        if isHyperbolaConic conic then
          (sampleHyperbolaConicConstrained conic
              (hyperbolaFitInputs [⟨0, 0, 0⟩, ⟨0, 0, 0⟩]).1.1
              (hyperbolaFitInputs [⟨0, 0, 0⟩, ⟨0, 0, 0⟩]).1.2.1
              (hyperbolaFitInputs [⟨0, 0, 0⟩, ⟨0, 0, 0⟩]).1.2.2 5).map
            (fun p2 => fromPlane2D p2 (hyperbolaFitInputs [⟨0, 0, 0⟩, ⟨0, 0, 0⟩]).2.1
              (hyperbolaFitInputs [⟨0, 0, 0⟩, ⟨0, 0, 0⟩]).2.2.1
              (hyperbolaFitInputs [⟨0, 0, 0⟩, ⟨0, 0, 0⟩]).2.2.2.1)
        else catmullRomPoints [⟨0, 0, 0⟩, ⟨0, 0, 0⟩] 5) :=
  ⟨by simp, hyperbola_classification_and_fallback.2 [⟨0, 0, 0⟩, ⟨0, 0, 0⟩] 5 (by simp)⟩
